import Mathlib

/-!
# Verification of the GeolocationProject tile store and PIR adapter

Shallow embedding of `src/python/tile_db.py`, `src/python/ypir_adapter.py`
and `src/python/demo_geopir.py`.

Modelling conventions:
* byte strings are `List Nat` (each entry a byte value);
* Python floats are embedded as exact rationals (`Rat`);
* the on-disk file is the list of bytes `write_tile_db_bin` produces;
* the per-record JSON payload produced from the seeded `random.Random`
  stream is abstracted as a function `payload : Nat → List Nat`
  (tile index ↦ serialized payload bytes), since the Mersenne-Twister
  float stream is not embeddable; theorems quantify over it;
* the external `ypir_rs` engine (out of scope per the design) is an
  abstract structure of opaque functions.
-/

/-! ## GeoGrid (`tile_db.py`) -/

/-- `GeoGrid` dataclass from `tile_db.py`; floats embedded as rationals. -/
structure GeoGrid where
  lat_min : Rat
  lon_min : Rat
  lat_step : Rat
  lon_step : Rat
  n_lat : Nat
  n_lon : Nat
  deriving DecidableEq

/-- `GeoGrid.n_tiles` property: `n_lat * n_lon`. -/
def GeoGrid.n_tiles (g : GeoGrid) : Nat := g.n_lat * g.n_lon

/-- Row computation of `GeoGrid.tile_index`:
`i = max(0, min(n_lat - 1, floor((lat - lat_min) / lat_step)))`. -/
def GeoGrid.tile_row (g : GeoGrid) (lat : Rat) : Int :=
  max 0 (min ((g.n_lat : Int) - 1) (Int.floor ((lat - g.lat_min) / g.lat_step)))

/-- Column computation of `GeoGrid.tile_index`:
`j = max(0, min(n_lon - 1, floor((lon - lon_min) / lon_step)))`. -/
def GeoGrid.tile_col (g : GeoGrid) (lon : Rat) : Int :=
  max 0 (min ((g.n_lon : Int) - 1) (Int.floor ((lon - g.lon_min) / g.lon_step)))

/-- `GeoGrid.tile_index`: map `(lat, lon)` to `i * n_lon + j` with clamping. -/
def GeoGrid.tile_index (g : GeoGrid) (lat lon : Rat) : Int :=
  g.tile_row lat * g.n_lon + g.tile_col lon

/-- The hardcoded grid from `demo_geopir.main`. -/
def demoGrid : GeoGrid :=
  { lat_min := 48, lon_min := 8, lat_step := 1/100, lon_step := 1/100,
    n_lat := 400, n_lon := 400 }

/-! ## Record store binary format (`tile_db.py`) -/

/-- `_pad_record`: truncate to `record_size` if longer, else pad with NUL bytes. -/
def _pad_record (b : List Nat) (record_size : Nat) : List Nat :=
  if record_size < b.length then b.take record_size
  else b ++ List.replicate (record_size - b.length) 0

/-- The 7-byte magic tag `b"TILEDB1"`. -/
def MAGIC : List Nat := [84, 73, 76, 69, 68, 66, 49]

/-- Little-endian 32-bit encoding, as `struct.pack("<I", n)` for `n < 2^32`. -/
def le32 (n : Nat) : List Nat :=
  [n % 256, n / 256 % 256, n / 65536 % 256, n / 16777216 % 256]

/-- Little-endian 32-bit decoding, as `struct.unpack("<I", l)`. -/
def de32 (l : List Nat) : Nat :=
  l.getD 0 0 + 256 * l.getD 1 0 + 65536 * l.getD 2 0 + 16777216 * l.getD 3 0

/-- `write_tile_db_bin`: magic, `record_size` and `n_tiles` as `<II`, then for
each tile index in `[0, n_tiles)` its serialized payload padded/truncated to
`record_size`.  The seeded-rng JSON payload bytes are abstracted as the
function `payload`. -/
def write_tile_db_bin (grid : GeoGrid) (record_size : Nat)
    (payload : Nat → List Nat) : List Nat :=
  MAGIC ++ le32 record_size ++ le32 grid.n_tiles ++
    (List.range grid.n_tiles).flatMap (fun idx => _pad_record (payload idx) record_size)

/-- `read_tile_db_bin_header`: checks the magic tag, then unpacks
`record_size` and `n_tiles` and returns them with `header_size = 7 + 8`.
`struct.unpack` fails when fewer than 8 bytes follow the magic. -/
def read_tile_db_bin_header (file : List Nat) : Except String (Nat × Nat × Nat) :=
  if file.take 7 = MAGIC then
    if file.length < 15 then .error "struct.error"
    else .ok (de32 ((file.drop 7).take 4), de32 ((file.drop 11).take 4), 15)
  else .error "Bad magic header"

/-- `direct_fetch`: baseline retrieval.  Reads the header, range-checks the
index, then seeks to `header_size + idx * record_size` and reads up to
`record_size` bytes. -/
def direct_fetch (file : List Nat) (idx : Int) : Except String (List Nat) :=
  match read_tile_db_bin_header file with
  | .error e => .error e
  | .ok (record_size, n_tiles, header_size) =>
    if 0 ≤ idx ∧ idx < (n_tiles : Int) then
      .ok ((file.drop (header_size + idx.toNat * record_size)).take record_size)
    else .error "idx out of range"

/-! ## Demo harness (`demo_geopir.py`) -/

/-- `ensure_db`: the file state at the path after the call — creation is
skipped when a file already exists (`existing = some file`), otherwise the
store is written with the fixed seed. -/
def ensure_db (existing : Option (List Nat)) (grid : GeoGrid) (record_size : Nat)
    (payload : Nat → List Nat) : List Nat :=
  match existing with
  | some file => file
  | none => write_tile_db_bin grid record_size payload

/-- The measurement-relevant fields of `demo_geopir.Result` for the baseline
path (timings are wall-clock and outside the model). -/
structure BaselineResult where
  n_tiles : Nat
  record_size : Nat
  idx : Int
  upload_bytes : Nat
  download_bytes : Nat
  deriving DecidableEq

/-- `run_baseline`: reads the header, performs the direct fetch, and reports
`upload_bytes = 4` and `download_bytes = len(rec)`. -/
def run_baseline (file : List Nat) (idx : Int) :
    Except String (BaselineResult × List Nat) :=
  match read_tile_db_bin_header file with
  | .error e => .error e
  | .ok (record_size, n_tiles, _) =>
    match direct_fetch file idx with
    | .error e => .error e
    | .ok rec =>
      .ok ({ n_tiles := n_tiles, record_size := record_size, idx := idx,
             upload_bytes := 4, download_bytes := rec.length }, rec)

/-! ## PIR adapter (`ypir_adapter.py`) -/

/-- The opaque `ypir_rs` engine interface (external collaborator). -/
structure YpirEngine (P C S : Type) where
  params_for : Nat → Nat → Bool → P
  params_db_dim_1 : P → Nat
  required_db_bytes : P → Nat
  client_new : P → C
  server_new : P → List Nat → Bool → Bool → S
  query : C → Nat → Nat → Bool → Nat → Bool → List Nat

/-- `YpirContext` dataclass from `ypir_adapter.py`. -/
structure YpirContext (P C S : Type) where
  params : P
  client : C
  server : S
  dim_log2 : Nat
  required_db_bytes : Nat
  n_items : Nat
  item_size_bytes : Nat

/-- `_read_records_region`: everything after the TILEDB header. -/
def _read_records_region (file : List Nat) : Except String (List Nat) :=
  match read_tile_db_bin_header file with
  | .error e => .error e
  | .ok (_, _, header_size) => .ok (file.drop header_size)

/-- `_build_ypir_db_bytes`: truncate the records region to `required` bytes,
repeating it end-to-end first when it is too short; empty region is an error. -/
def _build_ypir_db_bytes (file : List Nat) (required : Nat) :
    Except String (List Nat) :=
  match _read_records_region file with
  | .error e => .error e
  | .ok records =>
    if records.length = 0 then .error "DB records region is empty"
    else if required ≤ records.length then .ok (records.take required)
    else
      let reps := (required + records.length - 1) / records.length
      .ok ((List.flatten (List.replicate reps records)).take required)

/-- `ypir_setup`: derives params, dimension and required byte length from the
engine, builds the reshaped database bytes, and constructs both protocol
states. -/
def ypir_setup {P C S : Type} (eng : YpirEngine P C S) (file : List Nat)
    (n_items item_size_bytes : Nat) (is_simplepir : Bool) :
    Except String (YpirContext P C S) :=
  let params := eng.params_for n_items item_size_bytes is_simplepir
  let dim_log2 := eng.params_db_dim_1 params
  let required := eng.required_db_bytes params
  match _build_ypir_db_bytes file required with
  | .error e => .error e
  | .ok db_bytes =>
    .ok { params := params, client := eng.client_new params,
          server := eng.server_new params db_bytes false true,
          dim_log2 := dim_log2, required_db_bytes := required,
          n_items := n_items, item_size_bytes := item_size_bytes }

/-- The row derivation in `ypir_make_query`: `row = idx % (1 << dim_log2)`. -/
def ypir_query_row (dim_log2 : Nat) (idx : Nat) : Nat := idx % (1 <<< dim_log2)

/-- `ypir_make_query`: maps the tile index to a row and asks the client state
for a packed query (`public_seed_idx = 0`, packing on). -/
def ypir_make_query {P C S : Type} (eng : YpirEngine P C S)
    (ctx : YpirContext P C S) (idx : Nat) : List Nat :=
  eng.query ctx.client 0 ctx.dim_log2 true (ypir_query_row ctx.dim_log2 idx) true

/-- Shape of a well-formed store file: header fields followed by the records
region. -/
def storeFile (record_size n_tiles : Nat) (records : List Nat) : List Nat :=
  MAGIC ++ le32 record_size ++ le32 n_tiles ++ records

/-- A trivial instantiation of the opaque engine interface, used to
instantiate theorems quantified over engines. -/
def unitEngine : YpirEngine Unit Unit Unit :=
  { params_for := fun _ _ _ => (), params_db_dim_1 := fun _ => 1,
    required_db_bytes := fun _ => 4, client_new := fun _ => (),
    server_new := fun _ _ _ _ => (), query := fun _ _ _ _ row _ => [row] }

/-- A concrete context for instantiating query-row theorems. -/
def unitCtx : YpirContext Unit Unit Unit :=
  { params := (), client := (), server := (), dim_log2 := 1,
    required_db_bytes := 4, n_items := 3, item_size_bytes := 2 }


/-! ## JSON payload model (`demo_geopir.parse_tile_record` and the payloads
written by `write_tile_db_bin`)

The `json` stdlib is an external library; it is modelled here on the
fragment the store actually produces: compact separators `(",", ":")`,
unescaped printable-ASCII strings, and numeric literals kept as their
serialized text (the digits of `idx` and the `repr` of the rng floats). -/

mutual
/-- JSON values of the payload fragment. -/
inductive Jval where
  | jnum (s : String)
  | jstr (s : String)
  | jarr (xs : Jarr)
  | jobj (kvs : Jobj)
  deriving DecidableEq
/-- JSON arrays. -/
inductive Jarr where
  | nil
  | cons (v : Jval) (tl : Jarr)
  deriving DecidableEq
/-- JSON object member lists. -/
inductive Jobj where
  | nil
  | cons (k : String) (v : Jval) (tl : Jobj)
  deriving DecidableEq
end

/-- Serialization of a JSON string (no escapes arise in the fragment). -/
def dumpsStr (s : String) : List Char := '"' :: (s.data ++ ['"'])

mutual
/-- `json.dumps(·, separators=(",", ":"))` on the payload fragment. -/
def dumpsVal : Jval → List Char
  | .jnum s => s.data
  | .jstr s => dumpsStr s
  | .jarr xs => '[' :: (dumpsArr xs ++ [']'])
  | .jobj kvs => '{' :: (dumpsObj kvs ++ ['}'])
/-- Comma-separated serialization of array elements. -/
def dumpsArr : Jarr → List Char
  | .nil => []
  | .cons x .nil => dumpsVal x
  | .cons x (.cons y tl) => dumpsVal x ++ ',' :: dumpsArr (.cons y tl)
/-- Comma-separated serialization of object members. -/
def dumpsObj : Jobj → List Char
  | .nil => []
  | .cons k v .nil => dumpsStr k ++ ':' :: dumpsVal v
  | .cons k v (.cons k2 v2 tl) =>
    dumpsStr k ++ ':' :: dumpsVal v ++ ',' :: dumpsObj (.cons k2 v2 tl)
end

/-- Characters that may appear in a serialized Python numeric literal. -/
def numChar (c : Char) : Bool :=
  (48 ≤ c.toNat && c.toNat ≤ 57) || c == '-' || c == '+' || c == '.' ||
    c == 'e' || c == 'E'

/-- Body of a JSON string after the opening quote: everything up to the
closing quote. -/
def parseStrBody : List Char → Option (String × List Char)
  | [] => none
  | c :: cs =>
    if c = '"' then some ("", cs)
    else
      match parseStrBody cs with
      | some (s, rest) => some (String.mk (c :: s.data), rest)
      | none => none

mutual
/-- Recursive-descent JSON parser for the payload fragment (`json.loads`),
fuel-indexed so that it evaluates in the kernel. -/
def parseVal : Nat → List Char → Option (Jval × List Char)
  | 0, _ => none
  | _ + 1, [] => none
  | fuel + 1, c :: cs =>
    if c = '"' then
      match parseStrBody cs with
      | some (s, rest) => some (.jstr s, rest)
      | none => none
    else if c = '[' then
      if cs.head? = some ']' then some (.jarr .nil, cs.tail)
      else
        match parseElems fuel cs with
        | some (xs, rest) => some (.jarr xs, rest)
        | none => none
    else if c = '{' then
      if cs.head? = some '}' then some (.jobj .nil, cs.tail)
      else
        match parseMembers fuel cs with
        | some (kvs, rest) => some (.jobj kvs, rest)
        | none => none
    else if numChar c then
      some (.jnum (String.mk ((c :: cs).takeWhile numChar)),
        (c :: cs).dropWhile numChar)
    else none
/-- One-or-more comma-separated values terminated by a closing bracket. -/
def parseElems : Nat → List Char → Option (Jarr × List Char)
  | 0, _ => none
  | fuel + 1, l =>
    match parseVal fuel l with
    | some (v, rest) =>
      match rest with
      | [] => none
      | c :: rest2 =>
        if c = ',' then
          match parseElems fuel rest2 with
          | some (vs, rest3) => some (.cons v vs, rest3)
          | none => none
        else if c = ']' then some (.cons v .nil, rest2)
        else none
    | none => none
/-- One-or-more comma-separated members terminated by a closing brace. -/
def parseMembers : Nat → List Char → Option (Jobj × List Char)
  | 0, _ => none
  | fuel + 1, l =>
    match l with
    | [] => none
    | c :: cs =>
      if c = '"' then
        match parseStrBody cs with
        | some (k, rest) =>
          match rest with
          | [] => none
          | c2 :: rest2 =>
            if c2 = ':' then
              match parseVal fuel rest2 with
              | some (v, rest3) =>
                match rest3 with
                | [] => none
                | c3 :: rest4 =>
                  if c3 = ',' then
                    match parseMembers fuel rest4 with
                    | some (kvs, rest5) => some (.cons k v kvs, rest5)
                    | none => none
                  else if c3 = '}' then some (.cons k v .nil, rest4)
                  else none
              | none => none
            else none
        | none => none
      else none
end

/-- `json.loads` on the fragment: a parse succeeds only if it consumes the
whole text. -/
def jsonParse (txt : List Char) : Option Jval :=
  match parseVal (2 * txt.length + 2) txt with
  | some (v, []) => some v
  | _ => none

/-- UTF-8 continuation byte test. -/
def utf8Cont (b : Nat) : Bool := 128 ≤ b && b < 192

/-- UTF-8 decoding with replacement (`bytes.decode("utf-8", errors="replace")`),
fuel-indexed by the input length.  Invalid sequences yield U+FFFD; the model
emits one replacement per bad leading byte (CPython may merge a truncated
sequence into one replacement, a difference not visible to the theorems,
which only evaluate it on ASCII and on single invalid bytes). -/
def utf8DecodeAux : Nat → List Nat → List Char
  | 0, _ => []
  | _ + 1, [] => []
  | fuel + 1, b :: rest =>
    if b < 128 then Char.ofNat b :: utf8DecodeAux fuel rest
    else if 194 ≤ b ∧ b ≤ 223 then
      match rest with
      | b2 :: rest2 =>
        if utf8Cont b2 = true then
          Char.ofNat ((b - 192) * 64 + (b2 - 128)) :: utf8DecodeAux fuel rest2
        else Char.ofNat 65533 :: utf8DecodeAux fuel rest
      | [] => [Char.ofNat 65533]
    else if 224 ≤ b ∧ b ≤ 239 then
      match rest with
      | b2 :: b3 :: rest3 =>
        if utf8Cont b2 = true ∧ utf8Cont b3 = true ∧
            (b ≠ 224 ∨ 160 ≤ b2) ∧ (b ≠ 237 ∨ b2 < 160) then
          Char.ofNat ((b - 224) * 4096 + (b2 - 128) * 64 + (b3 - 128)) ::
            utf8DecodeAux fuel rest3
        else Char.ofNat 65533 :: utf8DecodeAux fuel rest
      | _ => Char.ofNat 65533 :: utf8DecodeAux fuel rest
    else if 240 ≤ b ∧ b ≤ 244 then
      match rest with
      | b2 :: b3 :: b4 :: rest4 =>
        if utf8Cont b2 = true ∧ utf8Cont b3 = true ∧ utf8Cont b4 = true ∧
            (b ≠ 240 ∨ 144 ≤ b2) ∧ (b ≠ 244 ∨ b2 < 144) then
          Char.ofNat ((b - 240) * 262144 + (b2 - 128) * 4096 +
              (b3 - 128) * 64 + (b4 - 128)) :: utf8DecodeAux fuel rest4
        else Char.ofNat 65533 :: utf8DecodeAux fuel rest
      | _ => Char.ofNat 65533 :: utf8DecodeAux fuel rest
    else Char.ofNat 65533 :: utf8DecodeAux fuel rest

/-- `bytes.decode("utf-8", errors="replace")`. -/
def utf8DecodeReplace (l : List Nat) : List Char := utf8DecodeAux l.length l

/-- `rec.rstrip(b"\x00")`: strip trailing NUL bytes. -/
def rstripZeros (l : List Nat) : List Nat :=
  (l.reverse.dropWhile (· == 0)).reverse

/-- Result of `parse_tile_record`: either parsed structured data, or the
fallback dictionary `{"_raw": txt}` carrying the decoded text. -/
inductive TileParseResult where
  | parsed (v : Jval)
  | raw (s : String)
  deriving DecidableEq

/-- `parse_tile_record`: strip trailing NULs, decode with replacement, parse
as JSON; a parse failure degrades to the raw-text fallback. -/
def parse_tile_record (rec : List Nat) : TileParseResult :=
  let txt := utf8DecodeReplace (rstripZeros rec)
  match jsonParse txt with
  | some v => .parsed v
  | none => .raw (String.mk txt)

/-- Decimal digits accumulator for `str(n)`. -/
def natDigitsAux : Nat → Nat → List Char → List Char
  | 0, _, acc => acc
  | fuel + 1, n, acc =>
    if n < 10 then Char.ofNat (48 + n) :: acc
    else natDigitsAux fuel (n / 10) (Char.ofNat (48 + n % 10) :: acc)

/-- `str(n)` for a natural number (as serialized by `json.dumps` and used in
the f-string `poi_{idx}_{k}`). -/
def natRepr (n : Nat) : String := String.mk (natDigitsAux (n + 1) n [])

/-- Characters allowed in the fragment's strings: printable ASCII without
quote or backslash (so `json.dumps` emits them unescaped). -/
def goodStrChar (c : Char) : Bool :=
  32 ≤ c.toNat && c.toNat < 127 && c != '"' && c != '\\'

mutual
/-- Well-formedness of a payload value: numeric literals are non-empty
numeral text, strings are printable ASCII without quotes or backslashes. -/
def jwf : Jval → Bool
  | .jnum s => !s.data.isEmpty && s.data.all numChar
  | .jstr s => s.data.all goodStrChar
  | .jarr xs => jwfArr xs
  | .jobj kvs => jwfObj kvs
/-- Well-formedness of array elements. -/
def jwfArr : Jarr → Bool
  | .nil => true
  | .cons v tl => jwf v && jwfArr tl
/-- Well-formedness of object members. -/
def jwfObj : Jobj → Bool
  | .nil => true
  | .cons k v tl => k.data.all goodStrChar && jwf v && jwfObj tl
end

mutual
/-- Node count of a payload value, used as a fuel bound. -/
def jsize : Jval → Nat
  | .jnum _ => 1
  | .jstr _ => 1
  | .jarr xs => 1 + jsizeArr xs
  | .jobj kvs => 1 + jsizeObj kvs
/-- Node count of array elements. -/
def jsizeArr : Jarr → Nat
  | .nil => 0
  | .cons v tl => 1 + jsize v + jsizeArr tl
/-- Node count of object members. -/
def jsizeObj : Jobj → Nat
  | .nil => 0
  | .cons _ v tl => 1 + jsize v + jsizeObj tl
end

/-- One POI object `{"name": f"poi_{idx}_{k}", "type": ty}`. -/
def poiObj (idx k : Nat) (ty : String) : Jval :=
  .jobj (.cons "name" (.jstr ("poi_" ++ natRepr idx ++ "_" ++ natRepr k))
    (.cons "type" (.jstr ty) .nil))

/-- The POI array for tile `idx`, one entry per drawn type, keyed `k = 0, 1, …`. -/
def poisArr (idx : Nat) (k : Nat) : List String → Jarr
  | [] => .nil
  | ty :: tys => .cons (poiObj idx k ty) (poisArr idx (k + 1) tys)

/-- The payload dictionary written for tile `idx` by `write_tile_db_bin`.
The rng-drawn parts (float `repr`s `weather` and `risk`, integer `aqi`, POI
type draws) are parameters, since the Mersenne-Twister stream is not
embeddable; theorems quantify over them. -/
def tilePayload (idx : Nat) (weather : String) (aqi : Nat) (risk : String)
    (poiTypes : List String) : Jval :=
  .jobj (.cons "tile" (.jnum (natRepr idx))
    (.cons "weather_c" (.jnum weather)
      (.cons "aqi" (.jnum (natRepr aqi))
        (.cons "risk" (.jnum risk)
          (.cons "pois" (.jarr (poisArr idx 0 poiTypes)) .nil)))))

/-- ASCII encoding (agrees with UTF-8 on the fragment's characters). -/
def asciiEncode (l : List Char) : List Nat := l.map Char.toNat

/-- `json.dumps(payload, separators=(",", ":")).encode("utf-8")` for tile
`idx`. -/
def tileRecordBytes (idx : Nat) (weather : String) (aqi : Nat) (risk : String)
    (poiTypes : List String) : List Nat :=
  asciiEncode (dumpsVal (tilePayload idx weather aqi risk poiTypes))

/-- Lookup of a key in an object member list (first match, as in a Python
dict built from distinct keys). -/
def jlookupObj (key : String) : Jobj → Option Jval
  | .nil => none
  | .cons k v tl => if k = key then some v else jlookupObj key tl

/-- Lookup of a key in a parsed payload. -/
def jlookup (key : String) : Jval → Option Jval
  | .jobj kvs => jlookupObj key kvs
  | _ => none

/-- A 1×1 grid used to instantiate store theorems on concrete inputs. -/
def tinyGrid : GeoGrid :=
  { lat_min := 0, lon_min := 0, lat_step := 1, lon_step := 1,
    n_lat := 1, n_lon := 1 }

/-! ## Layout lemmas -/

/-- `de32` inverts `le32` below `2^32`. -/
theorem de32_le32 {n : Nat} (h : n < 4294967296) : de32 (le32 n) = n := by
  simp [de32, le32]
  omega

/-- Reading the header of a well-formed file recovers the written fields. -/
theorem read_header_wf (rs n : Nat) (rest : List Nat)
    (hrs : rs < 4294967296) (hn : n < 4294967296) :
    read_tile_db_bin_header (MAGIC ++ le32 rs ++ le32 n ++ rest) = .ok (rs, n, 15) := by
  simp only [read_tile_db_bin_header, MAGIC, le32, de32, List.cons_append, List.nil_append]
  norm_num
  rw [if_neg (by omega)]
  simp only [Except.ok.injEq, Prod.mk.injEq]
  exact ⟨by omega, by omega, trivial⟩

/-- Concatenating `n` blocks of constant length `rs` gives `n * rs` bytes. -/
theorem length_bind_const (f : Nat → List Nat) (rs : Nat) (n : Nat)
    (hf : ∀ k, (f k).length = rs) :
    ((List.range n).flatMap f).length = n * rs := by
  induction n with
  | zero => simp
  | succ n ih =>
    rw [List.range_succ, List.flatMap_append, List.length_append, ih]
    simp [List.flatMap_cons, hf n, Nat.succ_mul]

/-- Slicing block `i` out of `n` concatenated constant-length blocks. -/
theorem bind_slice (f : Nat → List Nat) (rs : Nat) (n i : Nat)
    (hf : ∀ k, (f k).length = rs) (hi : i < n) :
    (((List.range n).flatMap f).drop (i * rs)).take rs = f i := by
  induction n with
  | zero => omega
  | succ n ih =>
    rw [List.range_succ, List.flatMap_append]
    simp only [List.flatMap_cons, List.flatMap_nil, List.append_nil]
    rcases Nat.lt_or_ge i n with hlt | hge
    · have hA : ((List.range n).flatMap f).length = n * rs := length_bind_const f rs n hf
      have h1 : i * rs ≤ ((List.range n).flatMap f).length := by
        rw [hA]; exact Nat.mul_le_mul_right rs (Nat.le_of_lt hlt)
      rw [List.drop_append_of_le_length h1]
      have h2 : rs ≤ (((List.range n).flatMap f).drop (i * rs)).length := by
        rw [List.length_drop, hA]
        have hmul : (i + 1) * rs ≤ n * rs := Nat.mul_le_mul_right rs hlt
        rw [Nat.succ_mul] at hmul
        omega
      rw [List.take_append_of_le_length h2]
      exact ih hlt
    · have hieq : i = n := by omega
      subst hieq
      have hA : ((List.range i).flatMap f).length = i * rs := length_bind_const f rs i hf
      rw [← hA, List.drop_left]
      exact List.take_of_length_le (by rw [hf i])

/-- `_pad_record` always returns exactly `record_size` bytes. -/
theorem _pad_record_length (b : List Nat) (record_size : Nat) :
    (_pad_record b record_size).length = record_size := by
  unfold _pad_record
  split
  · simp; omega
  · simp; omega

/-- The store file has length `15 + n_tiles * record_size`. -/
theorem write_tile_db_bin_length (grid : GeoGrid) (record_size : Nat)
    (payload : Nat → List Nat) :
    (write_tile_db_bin grid record_size payload).length =
      15 + grid.n_tiles * record_size := by
  have hb := length_bind_const (fun idx => _pad_record (payload idx) record_size)
    record_size grid.n_tiles (fun k => _pad_record_length (payload k) record_size)
  unfold write_tile_db_bin
  simp [MAGIC, le32, hb]
  omega

/-- The fixed 15-byte header of a well-formed store. -/
theorem storeFile_header_length (rs n : Nat) :
    (MAGIC ++ le32 rs ++ le32 n).length = 15 := by
  simp [MAGIC, le32]

/-- Dropping past the header of a well-formed store lands in the records
region. -/
theorem storeFile_drop (rs n : Nat) (records : List Nat) (k : Nat) :
    (storeFile rs n records).drop (15 + k) = records.drop k := by
  unfold storeFile
  rw [← storeFile_header_length rs n, List.drop_append]

/-- `write_tile_db_bin` produces a well-formed store file. -/
theorem write_tile_db_bin_eq_storeFile (grid : GeoGrid) (record_size : Nat)
    (payload : Nat → List Nat) :
    write_tile_db_bin grid record_size payload =
      storeFile record_size grid.n_tiles
        ((List.range grid.n_tiles).flatMap
          (fun idx => _pad_record (payload idx) record_size)) := rfl

/-- `direct_fetch` on a well-formed store: range check, then slice. -/
theorem direct_fetch_eq (rs n : Nat) (records : List Nat) (idx : Int)
    (hrs : rs < 4294967296) (hn : n < 4294967296) :
    direct_fetch (storeFile rs n records) idx =
      if 0 ≤ idx ∧ idx < (n : Int) then
        .ok ((records.drop (idx.toNat * rs)).take rs)
      else .error "idx out of range" := by
  unfold direct_fetch
  rw [show storeFile rs n records = MAGIC ++ le32 rs ++ le32 n ++ records from rfl,
    read_header_wf rs n records hrs hn]
  have hdr := storeFile_drop rs n records (idx.toNat * rs)
  unfold storeFile at hdr
  dsimp only
  rw [hdr]

/-- The records region read back from a well-formed store. -/
theorem read_records_region_eq (rs n : Nat) (records : List Nat)
    (hrs : rs < 4294967296) (hn : n < 4294967296) :
    _read_records_region (storeFile rs n records) = .ok records := by
  unfold _read_records_region
  rw [show storeFile rs n records = MAGIC ++ le32 rs ++ le32 n ++ records from rfl,
    read_header_wf rs n records hrs hn]
  have := storeFile_drop rs n records 0
  simpa using this

/-- Length of a repeated block. -/
theorem length_flatten_replicate (m : Nat) (l : List Nat) :
    (List.flatten (List.replicate m l)).length = m * l.length := by
  induction m with
  | zero => simp
  | succ m ih =>
    rw [List.replicate_succ, List.flatten_cons, List.length_append, ih, Nat.succ_mul]
    omega

/-- Indexing into a repeated block wraps around modulo the block length. -/
theorem getD_flatten_replicate (m : Nat) (l : List Nat) (i : Nat)
    (hi : i < m * l.length) :
    (List.flatten (List.replicate m l)).getD i 0 = l.getD (i % l.length) 0 := by
  induction m generalizing i with
  | zero => omega
  | succ m ih =>
    rw [List.replicate_succ, List.flatten_cons]
    rcases Nat.lt_or_ge i l.length with h | h
    · rw [List.getD_append _ _ _ _ h, Nat.mod_eq_of_lt h]
    · rw [List.getD_append_right _ _ _ _ h, Nat.mod_eq_sub_mod h]
      refine ih (i - l.length) ?_
      rw [Nat.succ_mul] at hi
      omega

/-- The ceiling division used for `reps` in `_build_ypir_db_bytes` covers the
required length. -/
theorem ceil_reps_covers (required len : Nat) (hlen : 0 < len) :
    required ≤ ((required + len - 1) / len) * len := by
  obtain ⟨q, hq⟩ : ∃ q, q = (required + len - 1) / len := ⟨_, rfl⟩
  obtain ⟨A, hA⟩ : ∃ A, A = len * q := ⟨_, rfl⟩
  obtain ⟨r, hr⟩ : ∃ r, r = (required + len - 1) % len := ⟨_, rfl⟩
  have hd := Nat.div_add_mod (required + len - 1) len
  have hm : (required + len - 1) % len < len := Nat.mod_lt _ hlen
  rw [← hq, ← hA, ← hr] at hd
  rw [← hr] at hm
  rw [← hq, Nat.mul_comm, ← hA]
  clear hA hq hr
  omega

/-- `read_tile_db_bin_header` on a well-formed store, phrased via `storeFile`. -/
theorem read_header_storeFile (rs n : Nat) (records : List Nat)
    (hrs : rs < 4294967296) (hn : n < 4294967296) :
    read_tile_db_bin_header (storeFile rs n records) = .ok (rs, n, 15) :=
  read_header_wf rs n records hrs hn

/-- The records-region slice fetched for a valid index has exactly
`record_size` bytes. -/
theorem fetch_slice_length (rs n : Nat) (records : List Nat) (i : Nat)
    (hlen : records.length = n * rs) (hi : i < n) :
    ((records.drop (i * rs)).take rs).length = rs := by
  rw [List.length_take, List.length_drop, hlen]
  have hmul : (i + 1) * rs ≤ n * rs := Nat.mul_le_mul_right rs hi
  rw [Nat.succ_mul] at hmul
  omega

/-- `_build_ypir_db_bytes` on a well-formed store with a non-empty records
region returns the records region repeated end-to-end and truncated to
exactly `required` bytes (index `i` holds byte `i mod len`). -/
theorem build_ypir_db_bytes_eq (rs n required : Nat) (records : List Nat)
    (hrs : rs < 4294967296) (hn : n < 4294967296) (hne : records ≠ []) :
    _build_ypir_db_bytes (storeFile rs n records) required =
      .ok ((List.range required).map (fun i => records.getD (i % records.length) 0)) := by
  have hlen0 : 0 < records.length := List.length_pos.mpr hne
  unfold _build_ypir_db_bytes
  rw [read_records_region_eq rs n records hrs hn]
  dsimp only
  rw [if_neg (by omega)]
  rcases le_or_lt required records.length with h | h
  · rw [if_pos h]
    congr 1
    apply List.ext_getElem
    · simp only [List.length_take, List.length_map, List.length_range]
      omega
    · intro i h1 h2
      simp only [List.getElem_take, List.getElem_map, List.getElem_range]
      have hilt : i < required := by simpa using h2
      rw [Nat.mod_eq_of_lt (by omega), List.getD_eq_getElem records 0 (by omega)]
  · rw [if_neg (by omega)]
    have hcov : required ≤ ((required + records.length - 1) / records.length) * records.length :=
      ceil_reps_covers required records.length hlen0
    have hflat : (List.flatten (List.replicate
        ((required + records.length - 1) / records.length) records)).length =
        ((required + records.length - 1) / records.length) * records.length :=
      length_flatten_replicate _ records
    congr 1
    apply List.ext_getElem
    · simp only [List.length_take, List.length_map, List.length_range, hflat]
      omega
    · intro i h1 h2
      simp only [List.getElem_take, List.getElem_map, List.getElem_range]
      have hilt : i < required := by
        simp only [List.length_take, hflat] at h1
        omega
      rw [← List.getD_eq_getElem _ 0, getD_flatten_replicate _ records i (by omega)]

/-! ## Claim theorems -/

/-- **C1** (amended): a store file produced by `write_tile_db_bin` has total
length `15 + n_tiles * record_size` bytes — the header occupies the first
15 bytes (7-byte magic plus two little-endian `uint32`s), so with
`record_size = 256` and the 400×400 grid the file is exactly 40,960,015
bytes long. -/
theorem c1_store_file_length :
    (∀ (grid : GeoGrid) (record_size : Nat) (payload : Nat → List Nat),
      (write_tile_db_bin grid record_size payload).length =
        15 + grid.n_tiles * record_size) ∧
    (∀ (grid : GeoGrid) (record_size : Nat) (payload : Nat → List Nat),
      (write_tile_db_bin grid record_size payload).take 15 =
        MAGIC ++ le32 record_size ++ le32 grid.n_tiles) ∧
    (∀ payload : Nat → List Nat,
      (write_tile_db_bin demoGrid 256 payload).length = 40960015) := by
  refine ⟨fun g rs p => write_tile_db_bin_length g rs p, fun g rs p => ?_, fun p => ?_⟩
  · rw [write_tile_db_bin_eq_storeFile]
    unfold storeFile
    rw [← storeFile_header_length rs g.n_tiles, List.take_left]
  · rw [write_tile_db_bin_length]
    norm_num [demoGrid, GeoGrid.n_tiles]

/-- **C1 counterexample**: the claimed total length `11 + n_tiles * record_size`
is wrong — with `record_size = 256` and the 400×400 demo grid the file
produced by `write_tile_db_bin` has 40,960,015 bytes, not
`11 + 400*400*256 = 40,960,011`: the header is 15 bytes, not 11. -/
theorem c1_counterexample :
    (write_tile_db_bin demoGrid 256 (fun _ => [])).length = 40960015 ∧
    ¬ (write_tile_db_bin demoGrid 256 (fun _ => [])).length =
        11 + demoGrid.n_tiles * 256 := by
  have h := write_tile_db_bin_length demoGrid 256 (fun _ => [])
  rw [h]
  norm_num [demoGrid, GeoGrid.n_tiles]

/-- **C4**: on a well-formed store, `direct_fetch` succeeds iff the index is
in `[0, n_tiles)`; outside that range (including `idx = n_tiles` and
`idx < 0`) it fails with the out-of-range error, and inside it returns
exactly the `record_size` bytes starting at offset
`header_size + idx * record_size`. -/
theorem c4_direct_fetch_range (rs n : Nat) (records : List Nat) (idx : Int)
    (hrs : rs < 4294967296) (hn : n < 4294967296)
    (hlen : records.length = n * rs) :
    ((∃ r, direct_fetch (storeFile rs n records) idx = .ok r) ↔
        (0 ≤ idx ∧ idx < (n : Int))) ∧
    (¬ (0 ≤ idx ∧ idx < (n : Int)) →
      direct_fetch (storeFile rs n records) idx = .error "idx out of range") ∧
    (∀ _h : 0 ≤ idx ∧ idx < (n : Int),
      direct_fetch (storeFile rs n records) idx =
        .ok (((storeFile rs n records).drop (15 + idx.toNat * rs)).take rs) ∧
      (((storeFile rs n records).drop (15 + idx.toNat * rs)).take rs).length = rs) := by
  have hfe := direct_fetch_eq rs n records idx hrs hn
  by_cases h : 0 ≤ idx ∧ idx < (n : Int)
  · rw [if_pos h] at hfe
    have hi : idx.toNat < n := by omega
    refine ⟨⟨fun _ => h, fun _ => ⟨_, hfe⟩⟩, fun hc => absurd h hc, fun _ => ⟨?_, ?_⟩⟩
    · rw [hfe, storeFile_drop]
    · rw [storeFile_drop]
      exact fetch_slice_length rs n records idx.toNat hlen hi
  · rw [if_neg h] at hfe
    refine ⟨⟨fun hex => ?_, fun hh => absurd hh h⟩, fun _ => hfe, fun hh => absurd hh h⟩
    obtain ⟨r, hr⟩ := hex
    rw [hfe] at hr
    exact absurd hr (by simp)

/-- **C4 witness**: concrete two-byte store with one record. -/
theorem c4_witness :
    direct_fetch (storeFile 2 1 [7, 8]) 0 =
      .ok (((storeFile 2 1 [7, 8]).drop (15 + (0 : Int).toNat * 2)).take 2) ∧
    direct_fetch (storeFile 2 1 [7, 8]) 1 = .error "idx out of range" ∧
    direct_fetch (storeFile 2 1 [7, 8]) (-1) = .error "idx out of range" :=
  ⟨((c4_direct_fetch_range 2 1 [7, 8] 0 (by norm_num) (by norm_num) (by decide)).2.2
      ⟨by decide, by decide⟩).1,
   (c4_direct_fetch_range 2 1 [7, 8] 1 (by norm_num) (by norm_num) (by decide)).2.1
      (by decide),
   (c4_direct_fetch_range 2 1 [7, 8] (-1) (by norm_num) (by norm_num) (by decide)).2.1
      (by decide)⟩

/-- **C6**: creation is skipped entirely when a file already exists, so
calling create twice on the same path leaves the file byte-for-byte
unchanged after the second call. -/
theorem c6_ensure_db_idempotent :
    (∀ (existing : Option (List Nat)) (grid : GeoGrid) (record_size : Nat)
        (payload : Nat → List Nat),
      ensure_db (some (ensure_db existing grid record_size payload))
          grid record_size payload =
        ensure_db existing grid record_size payload) ∧
    (∀ (file : List Nat) (grid : GeoGrid) (record_size : Nat)
        (payload : Nat → List Nat),
      ensure_db (some file) grid record_size payload = file) :=
  ⟨fun _ _ _ _ => rfl, fun _ _ _ _ => rfl⟩

/-- **C7**: `ypir_make_query` passes row `tile_index mod 2^dim_log2` to the
engine; that row is always in `[0, 2^dim_log2)`, and the mapping is
many-to-one whenever `n_items > 2^dim_log2`. -/
theorem c7_make_query_row {P C S : Type} (eng : YpirEngine P C S)
    (ctx : YpirContext P C S) (idx : Nat) :
    ypir_make_query eng ctx idx =
      eng.query ctx.client 0 ctx.dim_log2 true (idx % 2 ^ ctx.dim_log2) true ∧
    ypir_query_row ctx.dim_log2 idx = idx % 2 ^ ctx.dim_log2 ∧
    ypir_query_row ctx.dim_log2 idx < 2 ^ ctx.dim_log2 ∧
    (ctx.n_items > 2 ^ ctx.dim_log2 →
      ∃ i j : Nat, i < ctx.n_items ∧ j < ctx.n_items ∧ i ≠ j ∧
        ypir_query_row ctx.dim_log2 i = ypir_query_row ctx.dim_log2 j) := by
  have hpow : 0 < 2 ^ ctx.dim_log2 := Nat.pos_pow_of_pos _ (by norm_num)
  have hrow : ∀ k : Nat, ypir_query_row ctx.dim_log2 k = k % 2 ^ ctx.dim_log2 := by
    intro k
    unfold ypir_query_row
    rw [Nat.shiftLeft_eq, one_mul]
  refine ⟨?_, hrow idx, ?_, ?_⟩
  · unfold ypir_make_query
    rw [hrow]
  · rw [hrow]
    exact Nat.mod_lt _ hpow
  · intro hgt
    refine ⟨0, 2 ^ ctx.dim_log2, hpow.trans hgt, hgt, hpow.ne, ?_⟩
    rw [hrow, hrow, Nat.zero_mod, Nat.mod_self]

/-- **C7 witness**: concrete context with `dim_log2 = 1` and three items. -/
theorem c7_witness :
    ypir_query_row unitCtx.dim_log2 5 < 2 ^ unitCtx.dim_log2 ∧
    (∃ i j : Nat, i < unitCtx.n_items ∧ j < unitCtx.n_items ∧ i ≠ j ∧
      ypir_query_row unitCtx.dim_log2 i = ypir_query_row unitCtx.dim_log2 j) :=
  ⟨(c7_make_query_row unitEngine unitCtx 5).2.2.1,
   (c7_make_query_row unitEngine unitCtx 5).2.2.2 (by decide)⟩

/-- **C10**: on a well-formed store and a valid index, `run_baseline` reports
`upload_bytes = 4` and `download_bytes = record_size`. -/
theorem c10_baseline_report (rs n : Nat) (records : List Nat) (idx : Int)
    (hrs : rs < 4294967296) (hn : n < 4294967296)
    (hlen : records.length = n * rs) (h0 : 0 ≤ idx) (h1 : idx < (n : Int)) :
    ∃ rec, run_baseline (storeFile rs n records) idx =
        .ok ({ n_tiles := n, record_size := rs, idx := idx,
               upload_bytes := 4, download_bytes := rs }, rec) ∧
      rec.length = rs := by
  have hfe := direct_fetch_eq rs n records idx hrs hn
  rw [if_pos ⟨h0, h1⟩] at hfe
  have hi : idx.toNat < n := by omega
  have hrl := fetch_slice_length rs n records idx.toNat hlen hi
  refine ⟨_, ?_, hrl⟩
  unfold run_baseline
  rw [read_header_storeFile rs n records hrs hn]
  dsimp only
  rw [hfe]
  dsimp only
  rw [hrl]

/-- **C10 witness**: concrete two-byte store with one record. -/
theorem c10_witness :
    ∃ rec, run_baseline (storeFile 2 1 [7, 8]) 0 =
        .ok ({ n_tiles := 1, record_size := 2, idx := 0,
               upload_bytes := 4, download_bytes := 2 }, rec) ∧
      rec.length = 2 :=
  c10_baseline_report 2 1 [7, 8] 0 (by norm_num) (by norm_num) (by decide)
    (by decide) (by decide)

/-- **C3**: reshaping for the PIR engine — with a non-empty records region the
result is exactly the first `required` bytes when the region is long enough,
and in general the region repeated end-to-end and truncated to exactly
`required` bytes; an empty records region makes `ypir_setup` fail. -/
theorem c3_reshape (rs n required : Nat) (records : List Nat)
    (hrs : rs < 4294967296) (hn : n < 4294967296) :
    (records ≠ [] → required ≤ records.length →
      _build_ypir_db_bytes (storeFile rs n records) required =
        .ok (records.take required)) ∧
    (records ≠ [] →
      _build_ypir_db_bytes (storeFile rs n records) required =
        .ok ((List.range required).map
          (fun i => records.getD (i % records.length) 0))) ∧
    (records ≠ [] → ∃ l,
      _build_ypir_db_bytes (storeFile rs n records) required = .ok l ∧
        l.length = required) ∧
    (records = [] → ∀ (P C S : Type) (eng : YpirEngine P C S)
        (n_items item_size_bytes : Nat) (is_simplepir : Bool),
      ypir_setup eng (storeFile rs n records) n_items item_size_bytes is_simplepir =
        .error "DB records region is empty") := by
  refine ⟨fun hne hle => ?_, fun hne => build_ypir_db_bytes_eq rs n required records hrs hn hne,
    fun hne => ?_, fun hemp => ?_⟩
  · have hlen0 : 0 < records.length := List.length_pos.mpr hne
    unfold _build_ypir_db_bytes
    rw [read_records_region_eq rs n records hrs hn]
    dsimp only
    rw [if_neg (by omega), if_pos hle]
  · refine ⟨_, build_ypir_db_bytes_eq rs n required records hrs hn hne, ?_⟩
    simp
  · subst hemp
    intro P C S eng n_items item_size_bytes is_simplepir
    have hb : _build_ypir_db_bytes (storeFile rs n [])
        (eng.required_db_bytes (eng.params_for n_items item_size_bytes is_simplepir)) =
        .error "DB records region is empty" := by
      unfold _build_ypir_db_bytes
      rw [read_records_region_eq rs n [] hrs hn]
      simp
    unfold ypir_setup
    dsimp only
    rw [hb]

/-- **C3 witness**: one-byte records region tiled to three bytes, two-byte
region truncated to one byte, and the empty-region setup failure. -/
theorem c3_witness :
    _build_ypir_db_bytes (storeFile 1 1 [9]) 3 = .ok [9, 9, 9] ∧
    _build_ypir_db_bytes (storeFile 1 2 [5, 6]) 1 = .ok [5] ∧
    ypir_setup unitEngine (storeFile 1 0 []) 1 1 false =
      .error "DB records region is empty" := by
  refine ⟨?_, ?_, ?_⟩
  · have h := (c3_reshape 1 1 3 [9] (by norm_num) (by norm_num)).2.1 (by decide)
    rw [h]
    rfl
  · have h := (c3_reshape 1 2 1 [5, 6] (by norm_num) (by norm_num)).1 (by decide) (by decide)
    rw [h]
    rfl
  · exact (c3_reshape 1 0 0 [] (by norm_num) (by norm_num)).2.2.2 rfl
      Unit Unit Unit unitEngine 1 1 false

/-- **C5**: for every grid with positive cell counts and positive step sizes,
and every coordinate pair whatsoever, `tile_index` lands in `[0, n_tiles)`;
coordinates outside the bounding box are clamped to the nearest edge
row/column rather than producing an out-of-range index. -/
theorem c5_tile_index_range (g : GeoGrid) (lat lon : Rat)
    (hnlat : 0 < g.n_lat) (hnlon : 0 < g.n_lon)
    (hlat : 0 < g.lat_step) (hlon : 0 < g.lon_step) :
    (0 ≤ g.tile_index lat lon ∧ g.tile_index lat lon < (g.n_tiles : Int)) ∧
    (lat < g.lat_min → g.tile_row lat = 0) ∧
    (g.lat_min + g.n_lat * g.lat_step ≤ lat → g.tile_row lat = (g.n_lat : Int) - 1) ∧
    (lon < g.lon_min → g.tile_col lon = 0) ∧
    (g.lon_min + g.n_lon * g.lon_step ≤ lon → g.tile_col lon = (g.n_lon : Int) - 1) := by
  have hr0 : 0 ≤ g.tile_row lat := le_max_left 0 _
  have hc0 : 0 ≤ g.tile_col lon := le_max_left 0 _
  have hlat1 : (0 : Int) ≤ (g.n_lat : Int) - 1 := by omega
  have hlon1 : (0 : Int) ≤ (g.n_lon : Int) - 1 := by omega
  have hr1 : g.tile_row lat ≤ (g.n_lat : Int) - 1 :=
    max_le hlat1 (min_le_left _ _)
  have hc1 : g.tile_col lon ≤ (g.n_lon : Int) - 1 :=
    max_le hlon1 (min_le_left _ _)
  refine ⟨⟨?_, ?_⟩, ?_, ?_, ?_, ?_⟩
  · exact add_nonneg (mul_nonneg hr0 (by positivity)) hc0
  · have hmul : g.tile_row lat * (g.n_lon : Int) ≤ ((g.n_lat : Int) - 1) * g.n_lon :=
      mul_le_mul_of_nonneg_right hr1 (by positivity)
    have hnt : (g.n_tiles : Int) = (g.n_lat : Int) * g.n_lon := by
      unfold GeoGrid.n_tiles
      push_cast
      ring
    rw [GeoGrid.tile_index, hnt]
    nlinarith [hmul, hc1, hlon1]
  · intro hout
    have hq : (lat - g.lat_min) / g.lat_step < 0 :=
      div_neg_of_neg_of_pos (by linarith) hlat
    have hf : Int.floor ((lat - g.lat_min) / g.lat_step) < 0 := by
      rw [show (0 : Int) = ((0 : Int) : Int) from rfl]
      exact Int.floor_lt.mpr (by exact_mod_cast hq)
    unfold GeoGrid.tile_row
    rw [max_eq_left]
    exact le_trans (min_le_right _ _) (by omega)
  · intro hout
    have hq : ((g.n_lat : Int) : Rat) ≤ (lat - g.lat_min) / g.lat_step := by
      rw [le_div_iff₀ hlat]
      push_cast
      linarith
    have hf : (g.n_lat : Int) ≤ Int.floor ((lat - g.lat_min) / g.lat_step) :=
      Int.le_floor.mpr hq
    unfold GeoGrid.tile_row
    rw [min_eq_left (by omega), max_eq_right hlat1]
  · intro hout
    have hq : (lon - g.lon_min) / g.lon_step < 0 :=
      div_neg_of_neg_of_pos (by linarith) hlon
    have hf : Int.floor ((lon - g.lon_min) / g.lon_step) < 0 := by
      rw [show (0 : Int) = ((0 : Int) : Int) from rfl]
      exact Int.floor_lt.mpr (by exact_mod_cast hq)
    unfold GeoGrid.tile_col
    rw [max_eq_left]
    exact le_trans (min_le_right _ _) (by omega)
  · intro hout
    have hq : ((g.n_lon : Int) : Rat) ≤ (lon - g.lon_min) / g.lon_step := by
      rw [le_div_iff₀ hlon]
      push_cast
      linarith
    have hf : (g.n_lon : Int) ≤ Int.floor ((lon - g.lon_min) / g.lon_step) :=
      Int.le_floor.mpr hq
    unfold GeoGrid.tile_col
    rw [min_eq_left (by omega), max_eq_right hlon1]

/-- **C5 witness**: the demo grid at an out-of-box coordinate pair. -/
theorem c5_witness :
    (0 < demoGrid.n_lat ∧ 0 < demoGrid.n_lon ∧
      (0 : Rat) < demoGrid.lat_step ∧ (0 : Rat) < demoGrid.lon_step) ∧
    (0 ≤ demoGrid.tile_index 0 0 ∧
      demoGrid.tile_index 0 0 < (demoGrid.n_tiles : Int)) ∧
    ((0 : Rat) < demoGrid.lat_min → demoGrid.tile_row 0 = 0) :=
  ⟨⟨by norm_num [demoGrid], by norm_num [demoGrid], by norm_num [demoGrid],
      by norm_num [demoGrid]⟩,
   (c5_tile_index_range demoGrid 0 0 (by norm_num [demoGrid]) (by norm_num [demoGrid])
      (by norm_num [demoGrid]) (by norm_num [demoGrid])).1,
   fun h => (c5_tile_index_range demoGrid 0 0 (by norm_num [demoGrid])
      (by norm_num [demoGrid]) (by norm_num [demoGrid]) (by norm_num [demoGrid])).2.1 h⟩

/-- **C8**: on the demo grid (`lat_min=48, lon_min=8`, steps `0.01`, 400×400),
the demo query point `(48.137, 11.575)` resolves to row 13 and column 357,
hence flat tile index `13*400+357 = 5557`. -/
theorem c8_demo_query_index :
    demoGrid.tile_row (48137/1000) = 13 ∧
    demoGrid.tile_col (11575/1000) = 357 ∧
    demoGrid.tile_index (48137/1000) (11575/1000) = 5557 ∧
    (13 * 400 + 357 : Int) = 5557 := by
  have hfr : (⌊(((48137/1000 : Rat) - 48) / (1/100))⌋ : Int) = 13 := by
    rw [Int.floor_eq_iff]
    norm_num
  have hfc : (⌊(((11575/1000 : Rat) - 8) / (1/100))⌋ : Int) = 357 := by
    rw [Int.floor_eq_iff]
    norm_num
  have hrow : demoGrid.tile_row (48137/1000) = 13 := by
    unfold GeoGrid.tile_row demoGrid
    norm_num [hfr]
  have hcol : demoGrid.tile_col (11575/1000) = 357 := by
    unfold GeoGrid.tile_col demoGrid
    norm_num [hfc]
  refine ⟨hrow, hcol, ?_, by norm_num⟩
  unfold GeoGrid.tile_index
  rw [hrow, hcol]
  norm_num [demoGrid]

/-! ## JSON round-trip lemmas -/

/-- Rebuilding a string from its character list is the identity. -/
theorem stringMk_data (s : String) : String.mk s.data = s := rfl

/-- A numeral character is none of the structural JSON characters. -/
theorem numChar_not_special {c : Char} (h : numChar c = true) :
    c ≠ '"' ∧ c ≠ '[' ∧ c ≠ '{' ∧ c ≠ ']' ∧ c ≠ '}' ∧ c ≠ ',' ∧ c ≠ ':' := by
  refine ⟨?_, ?_, ?_, ?_, ?_, ?_, ?_⟩ <;> rintro rfl <;> revert h <;> decide

/-- A numeral character is printable non-NUL ASCII. -/
theorem numChar_ascii {c : Char} (h : numChar c = true) :
    0 < c.toNat ∧ c.toNat < 128 := by
  simp only [numChar, Bool.or_eq_true, Bool.and_eq_true, beq_iff_eq,
    decide_eq_true_eq] at h
  rcases h with ((((⟨h1, h2⟩ | rfl) | rfl) | rfl) | rfl) | rfl
  · omega
  all_goals decide

/-- A good string character is printable non-NUL ASCII and not a quote. -/
theorem goodStrChar_spec {c : Char} (h : goodStrChar c = true) :
    0 < c.toNat ∧ c.toNat < 128 ∧ c ≠ '"' := by
  simp only [goodStrChar, Bool.and_eq_true, bne_iff_ne, ne_eq,
    decide_eq_true_eq] at h
  obtain ⟨⟨⟨h1, h2⟩, h3⟩, h4⟩ := h
  exact ⟨by omega, by omega, h3⟩

/-- `takeWhile` passes over a fully-satisfying prefix. -/
theorem takeWhile_append_all (p : Char → Bool) (l r : List Char)
    (hl : ∀ c ∈ l, p c = true) :
    (l ++ r).takeWhile p = l ++ r.takeWhile p := by
  induction l with
  | nil => rfl
  | cons c cs ih =>
    rw [List.cons_append, List.takeWhile_cons_of_pos (hl c (by simp)),
      ih (fun x hx => hl x (by simp [hx])), List.cons_append]

/-- `dropWhile` passes over a fully-satisfying prefix. -/
theorem dropWhile_append_all (p : Char → Bool) (l r : List Char)
    (hl : ∀ c ∈ l, p c = true) :
    (l ++ r).dropWhile p = r.dropWhile p := by
  induction l with
  | nil => rfl
  | cons c cs ih =>
    rw [List.cons_append, List.dropWhile_cons_of_pos (hl c (by simp))]
    exact ih (fun x hx => hl x (by simp [hx]))

/-- `takeWhile` stops immediately at a non-satisfying head. -/
theorem takeWhile_head_false (p : Char → Bool) (r : List Char)
    (hr : ∀ c, r.head? = some c → p c = false) :
    r.takeWhile p = [] := by
  cases r with
  | nil => rfl
  | cons c cs => simp [List.takeWhile_cons, hr c rfl]

/-- `dropWhile` keeps a list whose head does not satisfy the predicate. -/
theorem dropWhile_head_false (p : Char → Bool) (r : List Char)
    (hr : ∀ c, r.head? = some c → p c = false) :
    r.dropWhile p = r := by
  cases r with
  | nil => rfl
  | cons c cs => simp [List.dropWhile_cons, hr c rfl]

/-- `parseStrBody` inverts string serialization up to the closing quote. -/
theorem parseStrBody_roundtrip (l rest : List Char) (hl : ∀ c ∈ l, c ≠ '"') :
    parseStrBody (l ++ '"' :: rest) = some (String.mk l, rest) := by
  induction l with
  | nil => rfl
  | cons c cs ih =>
    have hc : c ≠ '"' := hl c (by simp)
    have ih2 := ih (fun x hx => hl x (by simp [hx]))
    simp only [List.cons_append, parseStrBody, List.append_eq, if_neg hc, ih2]

/-- Payload values have at least one node. -/
theorem jsize_pos (v : Jval) : 1 ≤ jsize v := by
  cases v <;> simp [jsize]

/-- Serialized well-formed values are non-empty and start with a quote, an
opening bracket or brace, or a numeral character. -/
theorem dumpsVal_head (v : Jval) (hwf : jwf v = true) :
    ∃ c cs, dumpsVal v = c :: cs ∧
      (c = '"' ∨ c = '[' ∨ c = '{' ∨ numChar c = true) := by
  cases v with
  | jnum s =>
    simp only [jwf, Bool.and_eq_true, Bool.not_eq_true', List.isEmpty_eq_false,
      List.all_eq_true] at hwf
    cases hs : s.data with
    | nil => exact absurd hs (by simpa using hwf.1)
    | cons c cs =>
      exact ⟨c, cs, by simp [dumpsVal, hs],
        Or.inr (Or.inr (Or.inr (hwf.2 c (by rw [hs]; simp))))⟩
  | jstr s => exact ⟨'"', s.data ++ ['"'], rfl, Or.inl rfl⟩
  | jarr xs => exact ⟨'[', dumpsArr xs ++ [']'], rfl, Or.inr (Or.inl rfl)⟩
  | jobj kvs => exact ⟨'{', dumpsObj kvs ++ ['}'], rfl, Or.inr (Or.inr (Or.inl rfl))⟩

/-- A non-empty serialized array starts with a character that is not a
closing bracket or brace. -/
theorem dumpsArr_cons_head (x : Jval) (tl : Jarr) (hwfx : jwf x = true) :
    ∃ c0 l0, dumpsArr (.cons x tl) = c0 :: l0 ∧ c0 ≠ ']' ∧ c0 ≠ '}' := by
  obtain ⟨c0, cs0, hd, hcls⟩ := dumpsVal_head x hwfx
  have hne : c0 ≠ ']' ∧ c0 ≠ '}' := by
    rcases hcls with rfl | rfl | rfl | hnum
    · exact ⟨by decide, by decide⟩
    · exact ⟨by decide, by decide⟩
    · exact ⟨by decide, by decide⟩
    · have h := numChar_not_special hnum
      exact ⟨h.2.2.2.1, h.2.2.2.2.1⟩
  cases tl with
  | nil => exact ⟨c0, cs0, by simp [dumpsArr, hd], hne.1, hne.2⟩
  | cons y tl2 =>
    exact ⟨c0, cs0 ++ ',' :: dumpsArr (.cons y tl2),
      by simp [dumpsArr, hd], hne.1, hne.2⟩

/-- Fuel-indexed round-trip: with enough fuel, the parser inverts `dumps` on
well-formed values, array elements, and object members. -/
theorem parse_roundtrip_master (fuel : Nat) :
    (∀ (v : Jval) (rest : List Char), jwf v = true → jsize v ≤ fuel →
      (∀ c, rest.head? = some c → numChar c = false) →
      parseVal fuel (dumpsVal v ++ rest) = some (v, rest)) ∧
    (∀ (xs : Jarr) (rest : List Char), jwfArr xs = true → jsizeArr xs ≤ fuel →
      xs ≠ .nil →
      parseElems fuel (dumpsArr xs ++ ']' :: rest) = some (xs, rest)) ∧
    (∀ (kvs : Jobj) (rest : List Char), jwfObj kvs = true → jsizeObj kvs ≤ fuel →
      kvs ≠ .nil →
      parseMembers fuel (dumpsObj kvs ++ '}' :: rest) = some (kvs, rest)) := by
  induction fuel with
  | zero =>
    refine ⟨fun v rest _ hsz _ => absurd hsz (by have := jsize_pos v; omega),
      fun xs rest _ hsz hne => ?_, fun kvs rest _ hsz hne => ?_⟩
    · cases xs with
      | nil => exact absurd rfl hne
      | cons x tl => simp [jsizeArr] at hsz
    · cases kvs with
      | nil => exact absurd rfl hne
      | cons k v tl => simp [jsizeObj] at hsz
  | succ fuel ih =>
    obtain ⟨ihP, ihQ, ihR⟩ := ih
    refine ⟨fun v rest hwf hsz hrest => ?_, fun xs rest hwf hsz hne => ?_,
      fun kvs rest hwf hsz hne => ?_⟩
    · -- parseVal inverts dumpsVal
      cases v with
      | jnum s =>
        simp only [jwf, Bool.and_eq_true, Bool.not_eq_true',
          List.isEmpty_eq_false, List.all_eq_true] at hwf
        obtain ⟨hnonempty, hall⟩ := hwf
        cases hs : s.data with
        | nil => exact absurd hs hnonempty
        | cons c cs =>
          have hallc : ∀ x ∈ c :: cs, numChar x = true := by
            rw [← hs]; exact hall
          have hc : numChar c = true := hallc c (by simp)
          have hspec := numChar_not_special hc
          rw [show dumpsVal (.jnum s) = s.data from rfl, hs, List.cons_append]
          simp only [parseVal]
          rw [if_neg hspec.1, if_neg hspec.2.1, if_neg hspec.2.2.1, if_pos hc]
          rw [show c :: (cs ++ rest) = (c :: cs) ++ rest from rfl]
          rw [takeWhile_append_all _ _ _ hallc, takeWhile_head_false _ _ hrest,
            dropWhile_append_all _ _ _ hallc, dropWhile_head_false _ _ hrest,
            List.append_nil, ← hs, stringMk_data]
      | jstr s =>
        simp only [jwf, List.all_eq_true] at hwf
        have hq : ∀ x ∈ s.data, x ≠ '"' := fun x hx => (goodStrChar_spec (hwf x hx)).2.2
        rw [show dumpsVal (.jstr s) = '"' :: (s.data ++ ['"']) from rfl,
          List.cons_append, List.append_assoc, List.singleton_append]
        simp only [parseVal]
        rw [if_pos trivial, parseStrBody_roundtrip s.data rest hq, stringMk_data]
      | jarr xs =>
        cases xs with
        | nil =>
          rw [show dumpsVal (.jarr .nil) = '[' :: ([']'] : List Char) from rfl,
            List.cons_append, List.singleton_append]
          simp only [parseVal]
          rw [if_neg (by decide : ¬ ('[' : Char) = '"'), if_pos trivial,
            if_pos (show ((']' :: rest : List Char)).head? = some ']' from rfl)]
          rfl
        | cons x tl =>
          have hwfx : jwf x = true := by
            have harr : jwfArr (.cons x tl) = true := hwf
            simp only [jwfArr, Bool.and_eq_true] at harr
            exact harr.1
          obtain ⟨c0, l0, hd, hc0r, hc0b⟩ := dumpsArr_cons_head x tl hwfx
          rw [show dumpsVal (.jarr (.cons x tl)) =
              '[' :: (dumpsArr (.cons x tl) ++ [']']) from rfl,
            List.cons_append, List.append_assoc, List.singleton_append]
          simp only [parseVal]
          rw [if_neg (by decide : ¬ ('[' : Char) = '"'), if_pos trivial,
            if_neg (by simp [hd, List.cons_append, hc0r]),
            ihQ (.cons x tl) rest hwf (by
              have hj : jsize (Jval.jarr (.cons x tl)) ≤ fuel + 1 := hsz
              simp only [jsize] at hj
              omega) (by simp)]
      | jobj kvs =>
        cases kvs with
        | nil =>
          rw [show dumpsVal (.jobj .nil) = '{' :: (['}'] : List Char) from rfl,
            List.cons_append, List.singleton_append]
          simp only [parseVal]
          rw [if_neg (by decide : ¬ ('{' : Char) = '"'),
            if_neg (by decide : ¬ ('{' : Char) = '['), if_pos trivial,
            if_pos (show (('}' :: rest : List Char)).head? = some '}' from rfl)]
          rfl
        | cons k v tl =>
          have hhead : ∃ l1, dumpsObj (.cons k v tl) = '"' :: l1 := by
            cases tl with
            | nil => exact ⟨k.data ++ ['"'] ++ ':' :: dumpsVal v, by
                simp [dumpsObj, dumpsStr, List.cons_append]⟩
            | cons k2 v2 tl2 => exact ⟨k.data ++ ['"'] ++ ':' :: dumpsVal v ++
                ',' :: dumpsObj (.cons k2 v2 tl2), by
                simp [dumpsObj, dumpsStr, List.cons_append]⟩
          obtain ⟨l1, hl1⟩ := hhead
          rw [show dumpsVal (.jobj (.cons k v tl)) =
              '{' :: (dumpsObj (.cons k v tl) ++ ['}']) from rfl,
            List.cons_append, List.append_assoc, List.singleton_append]
          simp only [parseVal]
          rw [if_neg (by decide : ¬ ('{' : Char) = '"'),
            if_neg (by decide : ¬ ('{' : Char) = '['), if_pos trivial,
            if_neg (by simp [hl1, List.cons_append]),
            ihR (.cons k v tl) rest hwf (by
              have hj : jsize (Jval.jobj (.cons k v tl)) ≤ fuel + 1 := hsz
              simp only [jsize] at hj
              omega) (by simp)]
    · -- parseElems inverts dumpsArr
      cases xs with
      | nil => exact absurd rfl hne
      | cons x tl =>
        have hwf2 : jwf x = true ∧ jwfArr tl = true := by
          simp only [jwfArr, Bool.and_eq_true] at hwf
          exact hwf
        have hszx : jsize x ≤ fuel ∧ jsizeArr tl ≤ fuel := by
          simp only [jsizeArr] at hsz
          have := jsize_pos x
          constructor <;> omega
        cases tl with
        | nil =>
          rw [show dumpsArr (.cons x .nil) = dumpsVal x from rfl]
          simp only [parseElems]
          rw [ihP x (']' :: rest) hwf2.1 hszx.1
            (by intro c hc; simp at hc; rw [← hc]; decide)]
          dsimp only
          rw [if_neg (by decide : ¬ (']' : Char) = ','), if_pos rfl]
        | cons y tl2 =>
          rw [show dumpsArr (.cons x (.cons y tl2)) =
              dumpsVal x ++ ',' :: dumpsArr (.cons y tl2) from rfl,
            List.append_assoc, List.cons_append]
          simp only [parseElems]
          rw [ihP x (',' :: (dumpsArr (.cons y tl2) ++ ']' :: rest)) hwf2.1 hszx.1
            (by intro c hc; simp at hc; rw [← hc]; decide)]
          dsimp only
          rw [if_pos rfl, ihQ (.cons y tl2) rest hwf2.2 hszx.2 (by simp)]
    · -- parseMembers inverts dumpsObj
      cases kvs with
      | nil => exact absurd rfl hne
      | cons k v tl =>
        have hwf2 : (k.data.all goodStrChar) = true ∧ jwf v = true ∧
            jwfObj tl = true := by
          simp only [jwfObj, Bool.and_eq_true] at hwf
          exact ⟨hwf.1.1, hwf.1.2, hwf.2⟩
        have hkq : ∀ x ∈ k.data, x ≠ '"' := fun x hx =>
          (goodStrChar_spec (by
            have hk := hwf2.1
            simp only [List.all_eq_true] at hk
            exact hk x hx)).2.2
        have hszx : jsize v ≤ fuel ∧ jsizeObj tl ≤ fuel := by
          simp only [jsizeObj] at hsz
          have := jsize_pos v
          constructor <;> omega
        cases tl with
        | nil =>
          rw [show dumpsObj (.cons k v .nil) =
              dumpsStr k ++ ':' :: dumpsVal v from rfl,
            show dumpsStr k = '"' :: (k.data ++ ['"']) from rfl]
          simp only [List.cons_append, List.append_assoc, List.nil_append,
            List.singleton_append]
          simp only [parseMembers]
          rw [if_pos trivial,
            parseStrBody_roundtrip k.data (':' :: (dumpsVal v ++ '}' :: rest)) hkq]
          dsimp only
          rw [if_pos rfl,
            ihP v ('}' :: rest) hwf2.2.1 hszx.1
              (by intro c hc; simp at hc; rw [← hc]; decide)]
          dsimp only
          rw [if_neg (by decide : ¬ ('}' : Char) = ','), if_pos rfl, stringMk_data]
        | cons k2 v2 tl2 =>
          rw [show dumpsObj (.cons k v (.cons k2 v2 tl2)) =
              dumpsStr k ++ ':' :: dumpsVal v ++ ',' :: dumpsObj (.cons k2 v2 tl2)
              from rfl,
            show dumpsStr k = '"' :: (k.data ++ ['"']) from rfl]
          simp only [List.cons_append, List.append_assoc, List.nil_append,
            List.singleton_append]
          simp only [parseMembers]
          rw [if_pos trivial,
            parseStrBody_roundtrip k.data
              (':' :: (dumpsVal v ++ (',' :: (dumpsObj (.cons k2 v2 tl2) ++
                '}' :: rest)))) hkq]
          dsimp only
          rw [if_pos rfl,
            ihP v (',' :: (dumpsObj (.cons k2 v2 tl2) ++ '}' :: rest)) hwf2.2.1 hszx.1
              (by intro c hc; simp at hc; rw [← hc]; decide)]
          dsimp only
          rw [if_pos rfl, ihR (.cons k2 v2 tl2) rest hwf2.2.2 hszx.2 (by simp),
            stringMk_data]

/-- Characters of serialized well-formed values are printable non-NUL ASCII. -/
theorem dumps_chars_master (fuel : Nat) :
    (∀ v, jwf v = true → jsize v ≤ fuel →
      ∀ c ∈ dumpsVal v, 0 < c.toNat ∧ c.toNat < 128) ∧
    (∀ xs, jwfArr xs = true → jsizeArr xs ≤ fuel →
      ∀ c ∈ dumpsArr xs, 0 < c.toNat ∧ c.toNat < 128) ∧
    (∀ kvs, jwfObj kvs = true → jsizeObj kvs ≤ fuel →
      ∀ c ∈ dumpsObj kvs, 0 < c.toNat ∧ c.toNat < 128) := by
  induction fuel with
  | zero =>
    refine ⟨fun v _ hsz => absurd hsz (by have := jsize_pos v; omega),
      fun xs hwf hsz c hc => ?_, fun kvs hwf hsz c hc => ?_⟩
    · cases xs with
      | nil => simp [dumpsArr] at hc
      | cons x tl => simp [jsizeArr] at hsz
    · cases kvs with
      | nil => simp [dumpsObj] at hc
      | cons k v tl => simp [jsizeObj] at hsz
  | succ fuel ih =>
    obtain ⟨ihP, ihQ, ihR⟩ := ih
    refine ⟨fun v hwf hsz c hc => ?_, fun xs hwf hsz c hc => ?_,
      fun kvs hwf hsz c hc => ?_⟩
    · cases v with
      | jnum s =>
        simp only [jwf, Bool.and_eq_true, Bool.not_eq_true',
          List.isEmpty_eq_false, List.all_eq_true] at hwf
        exact numChar_ascii (hwf.2 c hc)
      | jstr s =>
        simp only [jwf, List.all_eq_true] at hwf
        simp only [dumpsVal, dumpsStr, List.mem_cons, List.mem_append,
          List.mem_singleton, List.not_mem_nil, or_false] at hc
        rcases hc with rfl | hc | rfl
        · decide
        · have h := goodStrChar_spec (hwf c hc)
          exact ⟨h.1, h.2.1⟩
        · decide
      | jarr xs =>
        simp only [dumpsVal, List.mem_cons, List.mem_append,
          List.mem_singleton, List.not_mem_nil, or_false] at hc
        rcases hc with rfl | hc | rfl
        · decide
        · exact ihQ xs hwf (by simp only [jsize] at hsz; omega) c hc
        · decide
      | jobj kvs =>
        simp only [dumpsVal, List.mem_cons, List.mem_append,
          List.mem_singleton, List.not_mem_nil, or_false] at hc
        rcases hc with rfl | hc | rfl
        · decide
        · exact ihR kvs hwf (by simp only [jsize] at hsz; omega) c hc
        · decide
    · cases xs with
      | nil => simp [dumpsArr] at hc
      | cons x tl =>
        have hwf2 : jwf x = true ∧ jwfArr tl = true := by
          simp only [jwfArr, Bool.and_eq_true] at hwf
          exact hwf
        have hsz2 : jsize x ≤ fuel ∧ jsizeArr tl ≤ fuel := by
          simp only [jsizeArr] at hsz
          have := jsize_pos x
          constructor <;> omega
        cases tl with
        | nil =>
          rw [show dumpsArr (.cons x .nil) = dumpsVal x from rfl] at hc
          exact ihP x hwf2.1 hsz2.1 c hc
        | cons y tl2 =>
          rw [show dumpsArr (.cons x (.cons y tl2)) =
            dumpsVal x ++ ',' :: dumpsArr (.cons y tl2) from rfl] at hc
          simp only [List.mem_append, List.mem_cons] at hc
          rcases hc with hc | rfl | hc
          · exact ihP x hwf2.1 hsz2.1 c hc
          · decide
          · exact ihQ (.cons y tl2) hwf2.2 hsz2.2 c hc
    · cases kvs with
      | nil => simp [dumpsObj] at hc
      | cons k v tl =>
        have hwf2 : (k.data.all goodStrChar) = true ∧ jwf v = true ∧
            jwfObj tl = true := by
          simp only [jwfObj, Bool.and_eq_true] at hwf
          exact ⟨hwf.1.1, hwf.1.2, hwf.2⟩
        have hsz2 : jsize v ≤ fuel ∧ jsizeObj tl ≤ fuel := by
          simp only [jsizeObj] at hsz
          have := jsize_pos v
          constructor <;> omega
        have hkey : ∀ c ∈ dumpsStr k, 0 < c.toNat ∧ c.toNat < 128 := by
          intro c hc
          simp only [dumpsStr, List.mem_cons, List.mem_append,
            List.mem_singleton, List.not_mem_nil, or_false] at hc
          rcases hc with rfl | hc | rfl
          · decide
          · have hk := hwf2.1
            simp only [List.all_eq_true] at hk
            have h := goodStrChar_spec (hk c hc)
            exact ⟨h.1, h.2.1⟩
          · decide
        cases tl with
        | nil =>
          rw [show dumpsObj (.cons k v .nil) =
            dumpsStr k ++ ':' :: dumpsVal v from rfl] at hc
          simp only [List.mem_append, List.mem_cons] at hc
          rcases hc with hc | rfl | hc
          · exact hkey c hc
          · decide
          · exact ihP v hwf2.2.1 hsz2.1 c hc
        | cons k2 v2 tl2 =>
          rw [show dumpsObj (.cons k v (.cons k2 v2 tl2)) =
            dumpsStr k ++ ':' :: dumpsVal v ++
              ',' :: dumpsObj (.cons k2 v2 tl2) from rfl] at hc
          simp only [List.mem_append, List.mem_cons] at hc
          rcases hc with (hc | rfl | hc) | rfl | hc
          · exact hkey c hc
          · decide
          · exact ihP v hwf2.2.1 hsz2.1 c hc
          · decide
          · exact ihR (.cons k2 v2 tl2) hwf2.2.2 hsz2.2 c hc

/-- A well-formed value's node count is bounded by its serialized length. -/
theorem jsize_le_dumps (fuel : Nat) :
    (∀ v, jwf v = true → jsize v ≤ fuel → jsize v ≤ (dumpsVal v).length) ∧
    (∀ xs, jwfArr xs = true → jsizeArr xs ≤ fuel →
      jsizeArr xs ≤ (dumpsArr xs).length + 1) ∧
    (∀ kvs, jwfObj kvs = true → jsizeObj kvs ≤ fuel →
      jsizeObj kvs ≤ (dumpsObj kvs).length + 1) := by
  induction fuel with
  | zero =>
    refine ⟨fun v _ hsz => absurd hsz (by have := jsize_pos v; omega),
      fun xs hwf hsz => ?_, fun kvs hwf hsz => ?_⟩
    · cases xs with
      | nil => simp [jsizeArr]
      | cons x tl => simp [jsizeArr] at hsz
    · cases kvs with
      | nil => simp [jsizeObj]
      | cons k v tl => simp [jsizeObj] at hsz
  | succ fuel ih =>
    obtain ⟨ihP, ihQ, ihR⟩ := ih
    refine ⟨fun v hwf hsz => ?_, fun xs hwf hsz => ?_, fun kvs hwf hsz => ?_⟩
    · cases v with
      | jnum s =>
        simp only [jwf, Bool.and_eq_true, Bool.not_eq_true',
          List.isEmpty_eq_false, List.all_eq_true] at hwf
        have : s.data ≠ [] := hwf.1
        have : 1 ≤ s.data.length := by
          cases hs : s.data with
          | nil => exact absurd hs this
          | cons c cs => simp
        simp only [jsize, dumpsVal]
        omega
      | jstr s => simp [jsize, dumpsVal, dumpsStr]
      | jarr xs =>
        have h := ihQ xs hwf (by simp only [jsize] at hsz; omega)
        simp only [jsize, dumpsVal, List.length_cons, List.length_append,
          List.length_singleton]
        omega
      | jobj kvs =>
        have h := ihR kvs hwf (by simp only [jsize] at hsz; omega)
        simp only [jsize, dumpsVal, List.length_cons, List.length_append,
          List.length_singleton]
        omega
    · cases xs with
      | nil => simp [jsizeArr]
      | cons x tl =>
        have hwf2 : jwf x = true ∧ jwfArr tl = true := by
          simp only [jwfArr, Bool.and_eq_true] at hwf
          exact hwf
        have hsz2 : jsize x ≤ fuel ∧ jsizeArr tl ≤ fuel := by
          simp only [jsizeArr] at hsz
          have := jsize_pos x
          constructor <;> omega
        have hx := ihP x hwf2.1 hsz2.1
        cases tl with
        | nil =>
          simp only [jsizeArr, dumpsArr]
          omega
        | cons y tl2 =>
          have ht := ihQ (.cons y tl2) hwf2.2 hsz2.2
          simp only [jsizeArr, dumpsArr, List.length_append, List.length_cons] at *
          omega
    · cases kvs with
      | nil => simp [jsizeObj]
      | cons k v tl =>
        have hwf2 : jwf v = true ∧ jwfObj tl = true := by
          simp only [jwfObj, Bool.and_eq_true] at hwf
          exact ⟨hwf.1.2, hwf.2⟩
        have hsz2 : jsize v ≤ fuel ∧ jsizeObj tl ≤ fuel := by
          simp only [jsizeObj] at hsz
          have := jsize_pos v
          constructor <;> omega
        have hv := ihP v hwf2.1 hsz2.1
        cases tl with
        | nil =>
          simp only [jsizeObj, dumpsObj, dumpsStr, List.length_append,
            List.length_cons]
          omega
        | cons k2 v2 tl2 =>
          have ht := ihR (.cons k2 v2 tl2) hwf2.2 hsz2.2
          simp only [jsizeObj, dumpsObj, dumpsStr, List.length_append,
            List.length_cons] at *
          omega

/-- Top-level round-trip: parsing a serialized well-formed value returns it. -/
theorem jsonParse_dumps (v : Jval) (hwf : jwf v = true) :
    jsonParse (dumpsVal v) = some v := by
  unfold jsonParse
  have hsz : jsize v ≤ 2 * (dumpsVal v).length + 2 := by
    have h1 := (jsize_le_dumps (jsize v)).1 v hwf le_rfl
    omega
  have h := (parse_roundtrip_master (2 * (dumpsVal v).length + 2)).1 v [] hwf hsz
    (by intro c hc; simp at hc)
  rw [List.append_nil] at h
  rw [h]

/-- Decoding the ASCII encoding of ASCII characters is the identity. -/
theorem utf8DecodeAux_ascii (fuel : Nat) :
    ∀ l : List Char, l.length ≤ fuel → (∀ c ∈ l, c.toNat < 128) →
      utf8DecodeAux fuel (asciiEncode l) = l := by
  induction fuel with
  | zero =>
    intro l hl _
    cases l with
    | nil => rfl
    | cons c cs => simp at hl
  | succ fuel ih =>
    intro l hl hall
    cases l with
    | nil => rfl
    | cons c cs =>
      have hc : c.toNat < 128 := hall c (by simp)
      simp only [asciiEncode, List.map_cons]
      simp only [utf8DecodeAux]
      rw [if_pos hc, Char.ofNat_toNat]
      have := ih cs (by simp at hl; omega) (fun x hx => hall x (by simp [hx]))
      simp only [asciiEncode] at this
      rw [this]

/-- Decoding with replacement of an all-ASCII byte string. -/
theorem utf8DecodeReplace_ascii (l : List Char) (hl : ∀ c ∈ l, c.toNat < 128) :
    utf8DecodeReplace (asciiEncode l) = l := by
  unfold utf8DecodeReplace
  rw [show (asciiEncode l).length = l.length from by simp [asciiEncode]]
  exact utf8DecodeAux_ascii l.length l le_rfl hl

/-- Dropping leading zeros of a zero block. -/
theorem dropWhile_zeros_replicate (k : Nat) (m : List Nat) :
    (List.replicate k 0 ++ m).dropWhile (· == 0) = m.dropWhile (· == 0) := by
  induction k with
  | zero => rfl
  | succ k ih => simp [List.replicate_succ, List.dropWhile_cons, ih]

/-- Stripping trailing zeros recovers a zero-free payload. -/
theorem rstripZeros_pad (b : List Nat) (k : Nat) (hb : ∀ x ∈ b, x ≠ 0) :
    rstripZeros (b ++ List.replicate k 0) = b := by
  unfold rstripZeros
  rw [List.reverse_append, List.reverse_replicate, dropWhile_zeros_replicate]
  rw [show b.reverse.dropWhile (· == 0) = b.reverse from ?_, List.reverse_reverse]
  cases hr : b.reverse with
  | nil => rfl
  | cons x xs =>
    have hx : x ∈ b := by
      have : x ∈ b.reverse := by rw [hr]; simp
      simpa using this
    rw [List.dropWhile_cons_of_neg (by simp [hb x hx])]

/-- A payload that fits is padded, not truncated. -/
theorem _pad_record_of_fit (b : List Nat) (rs : Nat) (h : b.length ≤ rs) :
    _pad_record b rs = b ++ List.replicate (rs - b.length) 0 := by
  unfold _pad_record
  rw [if_neg (by omega)]

/-- Decoding a fitted, padded, well-formed serialized payload recovers it. -/
theorem parse_tile_record_padded (v : Jval) (rs : Nat)
    (hwf : jwf v = true) (hfit : (dumpsVal v).length ≤ rs) :
    parse_tile_record (_pad_record (asciiEncode (dumpsVal v)) rs) = .parsed v := by
  have hascii : ∀ c ∈ dumpsVal v, 0 < c.toNat ∧ c.toNat < 128 :=
    (dumps_chars_master (jsize v)).1 v hwf le_rfl
  have hlen : (asciiEncode (dumpsVal v)).length = (dumpsVal v).length := by
    simp [asciiEncode]
  rw [_pad_record_of_fit _ _ (by omega)]
  unfold parse_tile_record
  rw [rstripZeros_pad _ _ (by
    intro x hx
    simp only [asciiEncode, List.mem_map] at hx
    obtain ⟨c, hc, rfl⟩ := hx
    have := (hascii c hc).1
    omega)]
  rw [utf8DecodeReplace_ascii (dumpsVal v) (fun c hc => (hascii c hc).2)]
  dsimp only
  rw [jsonParse_dumps v hwf]

/-- The digit accumulator only produces decimal digit characters. -/
theorem natDigitsAux_digits (fuel : Nat) :
    ∀ (n : Nat) (acc : List Char),
      (∀ c ∈ acc, 48 ≤ c.toNat ∧ c.toNat ≤ 57) →
      ∀ c ∈ natDigitsAux fuel n acc, 48 ≤ c.toNat ∧ c.toNat ≤ 57 := by
  induction fuel with
  | zero => exact fun n acc hacc c hc => hacc c hc
  | succ fuel ih =>
    intro n acc hacc c hc
    simp only [natDigitsAux] at hc
    by_cases h : n < 10
    · rw [if_pos h] at hc
      rcases List.mem_cons.mp hc with rfl | hc2
      · interval_cases n <;> decide
      · exact hacc c hc2
    · rw [if_neg h] at hc
      refine ih (n / 10) _ ?_ c hc
      intro x hx
      rcases List.mem_cons.mp hx with rfl | hx2
      · obtain ⟨m, hm10, hmeq⟩ : ∃ m, m < 10 ∧ n % 10 = m :=
          ⟨n % 10, Nat.mod_lt _ (by omega), rfl⟩
        rw [hmeq]
        interval_cases m <;> decide
      · exact hacc x hx2

/-- The digit accumulator never returns an empty list from a non-empty
accumulator. -/
theorem natDigitsAux_ne_nil (fuel : Nat) :
    ∀ n acc, acc ≠ [] → natDigitsAux fuel n acc ≠ [] := by
  induction fuel with
  | zero => exact fun n acc h => h
  | succ fuel ih =>
    intro n acc h
    simp only [natDigitsAux]
    by_cases hn : n < 10
    · rw [if_pos hn]; simp
    · rw [if_neg hn]; exact ih _ _ (by simp)

/-- `str(n)` consists of decimal digits. -/
theorem natRepr_digits (n : Nat) :
    ∀ c ∈ (natRepr n).data, 48 ≤ c.toNat ∧ c.toNat ≤ 57 :=
  fun c hc => natDigitsAux_digits (n + 1) n [] (by simp) c hc

/-- `str(n)` is non-empty. -/
theorem natRepr_ne_nil (n : Nat) : (natRepr n).data ≠ [] := by
  show natDigitsAux (n + 1) n [] ≠ []
  simp only [natDigitsAux]
  by_cases hn : n < 10
  · rw [if_pos hn]; simp
  · rw [if_neg hn]; exact natDigitsAux_ne_nil _ _ _ (by simp)

/-- A decimal digit is a numeral character. -/
theorem digit_numChar {c : Char} (h1 : 48 ≤ c.toNat) (h2 : c.toNat ≤ 57) :
    numChar c = true := by
  simp only [numChar, Bool.or_eq_true, Bool.and_eq_true, decide_eq_true_eq]
  exact Or.inl (Or.inl (Or.inl (Or.inl (Or.inl ⟨h1, h2⟩))))

/-- A decimal digit is a good string character. -/
theorem digit_goodStrChar {c : Char} (h1 : 48 ≤ c.toNat) (h2 : c.toNat ≤ 57) :
    goodStrChar c = true := by
  have hne1 : c ≠ '"' := by rintro rfl; exact absurd h1 (by decide)
  have hne2 : c ≠ '\\' := by rintro rfl; exact absurd h2 (by decide)
  simp only [goodStrChar, Bool.and_eq_true, bne_iff_ne, ne_eq,
    decide_eq_true_eq]
  exact ⟨⟨⟨by omega, by omega⟩, hne1⟩, hne2⟩

/-- The serialized tile index is a well-formed numeric literal. -/
theorem jwf_jnum_natRepr (n : Nat) : jwf (.jnum (natRepr n)) = true := by
  simp only [jwf, Bool.and_eq_true, Bool.not_eq_true', List.isEmpty_eq_false,
    List.all_eq_true]
  exact ⟨natRepr_ne_nil n, fun c hc =>
    digit_numChar (natRepr_digits n c hc).1 (natRepr_digits n c hc).2⟩

/-- The POI name `poi_{idx}_{k}` is a well-formed JSON string. -/
theorem goodStr_poi_name (idx k : Nat) :
    (("poi_" ++ natRepr idx ++ "_" ++ natRepr k).data.all goodStrChar) = true := by
  simp only [String.data_append, List.all_append, Bool.and_eq_true]
  refine ⟨⟨⟨by decide, ?_⟩, by decide⟩, ?_⟩
  · simp only [List.all_eq_true]
    exact fun c hc =>
      digit_goodStrChar (natRepr_digits idx c hc).1 (natRepr_digits idx c hc).2
  · simp only [List.all_eq_true]
    exact fun c hc =>
      digit_goodStrChar (natRepr_digits k c hc).1 (natRepr_digits k c hc).2

/-- The POI array is well-formed when the drawn type strings are. -/
theorem jwfArr_poisArr (idx : Nat) (ts : List String) :
    ∀ k : Nat, (∀ t ∈ ts, t.data.all goodStrChar = true) →
      jwfArr (poisArr idx k ts) = true := by
  induction ts with
  | nil => intro k _; rfl
  | cons t ts ih =>
    intro k hts
    simp only [poisArr, jwfArr, Bool.and_eq_true]
    refine ⟨?_, ih (k + 1) (fun x hx => hts x (by simp [hx]))⟩
    simp only [poiObj, jwf, jwfObj, Bool.and_eq_true]
    exact ⟨⟨by decide, goodStr_poi_name idx k⟩,
      ⟨⟨by decide, hts t (by simp)⟩, trivial⟩⟩

/-- The tile payload is well-formed when the rng-drawn parts are. -/
theorem jwf_tilePayload (idx : Nat) (w : String) (aqi : Nat) (r : String)
    (ts : List String)
    (hw : jwf (.jnum w) = true) (hr : jwf (.jnum r) = true)
    (hts : ∀ t ∈ ts, t.data.all goodStrChar = true) :
    jwf (tilePayload idx w aqi r ts) = true := by
  have h1 := jwf_jnum_natRepr idx
  have h3 := jwf_jnum_natRepr aqi
  simp only [jwf, Bool.and_eq_true] at h1 h3 hw hr
  simp only [tilePayload, jwf, jwfObj, jwfArr, Bool.and_eq_true]
  exact ⟨⟨by decide, h1⟩, ⟨by decide, hw⟩, ⟨by decide, h3⟩, ⟨by decide, hr⟩,
    ⟨by decide, jwfArr_poisArr idx ts 0 hts⟩, trivial⟩

/-- The first field of the tile payload is `tile`, holding the serialized
index. -/
theorem jlookup_tile (idx : Nat) (w : String) (aqi : Nat) (r : String)
    (ts : List String) :
    jlookup "tile" (tilePayload idx w aqi r ts) = some (.jnum (natRepr idx)) := by
  simp [tilePayload, jlookup, jlookupObj]

/-- **C2** (amended): for every store created by `write_tile_db_bin` and
every valid index `i`, `direct_fetch` returns exactly `record_size` bytes;
and provided the serialized payload of tile `i` fits within `record_size`
(`len(raw) <= record_size`, the caller obligation the design states),
decoding those bytes with `parse_tile_record` recovers the payload written
at creation, whose `tile` field is the serialized index `i`.  The rng-drawn
payload parts are quantified over (floats as their `repr` numerals). -/
theorem c2_fetch_parses (grid : GeoGrid) (rs : Nat)
    (w r : Nat → String) (aqi : Nat → Nat) (ts : Nat → List String) (i : Nat)
    (hrs : rs < 4294967296) (hn : grid.n_tiles < 4294967296)
    (hi : i < grid.n_tiles)
    (hw : jwf (.jnum (w i)) = true) (hr : jwf (.jnum (r i)) = true)
    (hts : ∀ t ∈ ts i, t.data.all goodStrChar = true)
    (hfit : (dumpsVal (tilePayload i (w i) (aqi i) (r i) (ts i))).length ≤ rs) :
    ∃ rec,
      direct_fetch (write_tile_db_bin grid rs
          (fun k => tileRecordBytes k (w k) (aqi k) (r k) (ts k))) (i : Int) =
        .ok rec ∧
      rec.length = rs ∧
      parse_tile_record rec =
        .parsed (tilePayload i (w i) (aqi i) (r i) (ts i)) ∧
      jlookup "tile" (tilePayload i (w i) (aqi i) (r i) (ts i)) =
        some (.jnum (natRepr i)) := by
  have hfe := direct_fetch_eq rs grid.n_tiles
    ((List.range grid.n_tiles).flatMap
      (fun k => _pad_record (tileRecordBytes k (w k) (aqi k) (r k) (ts k)) rs))
    (i : Int) hrs hn
  rw [if_pos ⟨Int.natCast_nonneg i, by exact_mod_cast hi⟩] at hfe
  have hslice : (((List.range grid.n_tiles).flatMap
      (fun k => _pad_record (tileRecordBytes k (w k) (aqi k) (r k) (ts k)) rs)).drop
        ((i : Int).toNat * rs)).take rs =
      _pad_record (tileRecordBytes i (w i) (aqi i) (r i) (ts i)) rs := by
    rw [Int.toNat_natCast]
    exact bind_slice _ rs grid.n_tiles i (fun k => _pad_record_length _ rs) hi
  rw [hslice] at hfe
  refine ⟨_pad_record (tileRecordBytes i (w i) (aqi i) (r i) (ts i)) rs, ?_,
    _pad_record_length _ rs, ?_, jlookup_tile i (w i) (aqi i) (r i) (ts i)⟩
  · rw [write_tile_db_bin_eq_storeFile]
    exact hfe
  · exact parse_tile_record_padded _ rs
      (jwf_tilePayload i (w i) (aqi i) (r i) (ts i) hw hr hts) hfit

/-- **C2 witness**: a 1×1 store with `record_size = 256` and a concrete,
in-range payload draw. -/
theorem c2_witness :
    (tinyGrid.n_tiles < 4294967296 ∧ 0 < tinyGrid.n_tiles ∧
      jwf (.jnum "20.5") = true ∧ jwf (.jnum "0.5") = true ∧
      (dumpsVal (tilePayload 0 "20.5" 100 "0.5" ["cafe"])).length ≤ 256) ∧
    ∃ rec,
      direct_fetch (write_tile_db_bin tinyGrid 256
          (fun k => tileRecordBytes k "20.5" 100 "0.5" ["cafe"])) ((0 : Nat) : Int) =
        .ok rec ∧
      rec.length = 256 ∧
      parse_tile_record rec = .parsed (tilePayload 0 "20.5" 100 "0.5" ["cafe"]) ∧
      jlookup "tile" (tilePayload 0 "20.5" 100 "0.5" ["cafe"]) =
        some (.jnum (natRepr 0)) :=
  ⟨⟨by decide, by decide, by decide, by decide, by decide⟩,
   c2_fetch_parses tinyGrid 256 (fun _ => "20.5") (fun _ => "0.5")
     (fun _ => 100) (fun _ => ["cafe"]) 0 (by norm_num) (by decide) (by decide)
     (by decide) (by decide) (by intro t ht; simp at ht; rw [ht]; decide)
     (by decide)⟩

/-- **C2 counterexample**: with `record_size = 1` (the claim quantifies over
every `record_size`) the stored JSON is truncated to the single byte `{`
(123); fetch still returns `record_size` bytes, but decoding falls back to
the raw-text dictionary, so no parsed structured data with a `tile` field
exists. -/
theorem c2_counterexample :
    direct_fetch (write_tile_db_bin tinyGrid 1
        (fun k => tileRecordBytes k "20.5" 100 "0.5" ["cafe"])) 0 = .ok [123] ∧
    parse_tile_record [123] = .raw "\x7b" ∧
    ∀ v : Jval, parse_tile_record [123] ≠ .parsed v := by
  have hp : parse_tile_record [123] = TileParseResult.raw "\x7b" := by decide
  refine ⟨by rfl, hp, fun v h => ?_⟩
  rw [hp] at h
  exact TileParseResult.noConfusion h

/-- **C9**: `parse_tile_record` is total: for every input byte string it
either returns parsed structured data, or — exactly when the JSON parse of
the padding-stripped, replacement-decoded text fails — the raw-text
fallback carrying that decoded text (the `{"_raw": txt}` dictionary),
never an error. -/
theorem c9_parse_never_raises (rec : List Nat) :
    (∃ v, parse_tile_record rec = .parsed v ∧
      jsonParse (utf8DecodeReplace (rstripZeros rec)) = some v) ∨
    (parse_tile_record rec =
        .raw (String.mk (utf8DecodeReplace (rstripZeros rec))) ∧
      jsonParse (utf8DecodeReplace (rstripZeros rec)) = none) := by
  cases h : jsonParse (utf8DecodeReplace (rstripZeros rec)) with
  | some v =>
    refine Or.inl ⟨v, ?_, rfl⟩
    unfold parse_tile_record
    dsimp only
    rw [h]
  | none =>
    refine Or.inr ⟨?_, rfl⟩
    unfold parse_tile_record
    dsimp only
    rw [h]
